import Mathlib

/-!
Shallow embedding of the `turing_rs` repository (files `src/turing.rs` and
`src/main.rs`) and proofs about it.

`src/turing.rs` realizes the tape as a `HashMap<i64, T>` together with an
integer head; we model the hash map as an association list with map
semantics (`assocGet` / `assocInsert` / `assocRemove` mirror
`HashMap::get` / `insert` / `remove`, each returning the previous value
exactly as the Rust methods do).

`src/main.rs` realizes the tape as a doubly linked chain of
`Rc<RefCell<Cell>>` nodes walked by a `Cursor`; we model the heap of
reference-counted cells as a growable store (`Store`) indexed by `Nat`
ids, a `CellLink` being an id into that store.  `Rc::clone` of a link is
then id equality, which preserves the aliasing semantics of the source.
-/

namespace TuringRs

/-! ### The map tape of `src/turing.rs` -/

/-- Lookup in the association-list model of `HashMap<i64, T>`
(`HashMap::get`). -/
def assocGet {T : Type} (l : List (Int × T)) (k : Int) : Option T :=
  match l with
  | [] => none
  | (k', v) :: rest => if k' = k then some v else assocGet rest k

/-- `HashMap::insert`: stores `v` under `k` and returns the previously
stored value. -/
def assocInsert {T : Type} (l : List (Int × T)) (k : Int) (v : T) :
    Option T × List (Int × T) :=
  match l with
  | [] => (none, [(k, v)])
  | (k', v') :: rest =>
    if k' = k then
      (some v', (k, v) :: rest)
    else
      let (r, rest') := assocInsert rest k v
      (r, (k', v') :: rest')

/-- `HashMap::remove`: deletes the entry under `k` and returns the
previously stored value. -/
def assocRemove {T : Type} (l : List (Int × T)) (k : Int) :
    Option T × List (Int × T) :=
  match l with
  | [] => (none, [])
  | (k', v') :: rest =>
    let (r, rest') := assocRemove rest k
    if k' = k then (some v', rest') else (r, (k', v') :: rest')

/-- `Tape<T>` from `src/turing.rs`: a sparse map from integer position to
symbol. -/
structure Tape (T : Type) where
  cells : List (Int × T)
deriving DecidableEq

/-- `Tape::new()` -/
def Tape.new (T : Type) : Tape T := ⟨[]⟩

/-- `Tape::value(&self, head)` -/
def Tape.value {T : Type} (t : Tape T) (head : Int) : Option T :=
  assocGet t.cells head

/-- `Tape::set(&mut self, head, value)`: first component is the returned
previous value, second is the mutated tape. -/
def Tape.set {T : Type} (t : Tape T) (head : Int) (value : Option T) :
    Option T × Tape T :=
  match value with
  | none =>
    let (r, cells') := assocRemove t.cells head
    (r, ⟨cells'⟩)
  | some v =>
    let (r, cells') := assocInsert t.cells head v
    (r, ⟨cells'⟩)

/-! ### Machine types (shared between `turing.rs` and `main.rs`) -/

/-- `Movement` from `turing.rs` (identical to `Move` in `main.rs`). -/
inductive Movement where
  | Left
  | Right
  | Stay
deriving DecidableEq

/-- `Transition<S>` -/
inductive Transition (S : Type) where
  | State (s : S)
  | Halt
deriving DecidableEq

/-- `Action<T, S>` -/
structure Action (T S : Type) where
  set : Option T
  movement : Movement
  transition : Transition S
deriving DecidableEq

/-- `VirtualMachine<S>`: `Idle` carries the control state (in `main.rs`
the state is wrapped in an `IdleVirtualMachine` struct holding exactly
that state; we flatten the wrapper). -/
inductive VirtualMachine (S : Type) where
  | Idle (s : S)
  | Done
deriving DecidableEq

/-- `execute` from `src/turing.rs`: one step of the machine against the
map tape.  The tape is passed `&mut` in Rust, so the result carries the
new tape along with the new machine value and head. -/
def execute {T S : Type} (vm : VirtualMachine S) (action : Action T S)
    (tape : Tape T) (head : Int) : VirtualMachine S × Tape T × Int :=
  match vm with
  | VirtualMachine.Done => (VirtualMachine.Done, tape, head)
  | VirtualMachine.Idle _ =>
    let tape' := (tape.set head action.set).2
    let newHead :=
      match action.movement with
      | Movement.Left => head - 1
      | Movement.Right => head + 1
      | Movement.Stay => head
    let vmState :=
      match action.transition with
      | Transition.Halt => VirtualMachine.Done
      | Transition.State s => VirtualMachine.Idle s
    (vmState, tape', newHead)

/-- `TapeIter` from `src/turing.rs`. -/
structure TapeIter (T : Type) where
  tape : Tape T
  head : Int

/-- `Iterator::next` for `TapeIter`: yields the value under the head and
advances the head to the right. -/
def TapeIter.next {T : Type} (it : TapeIter T) :
    Option (Option T) × TapeIter T :=
  (some (it.tape.value it.head), ⟨it.tape, it.head + 1⟩)

/-- `DoubleEndedIterator::next_back` for `TapeIter`: yields the value
under the head and retreats the head to the left. -/
def TapeIter.next_back {T : Type} (it : TapeIter T) :
    Option (Option T) × TapeIter T :=
  (some (it.tape.value it.head), ⟨it.tape, it.head - 1⟩)

/-! ### Lemmas about the association-list map -/

theorem assocInsert_fst {T : Type} (l : List (Int × T)) (k : Int) (v : T) :
    (assocInsert l k v).1 = assocGet l k := by
  induction l with
  | nil => simp [assocInsert, assocGet]
  | cons hd tl ih =>
    obtain ⟨k', v'⟩ := hd
    simp only [assocInsert, assocGet]
    split
    · rfl
    · simpa using ih

theorem assocRemove_fst {T : Type} (l : List (Int × T)) (k : Int) :
    (assocRemove l k).1 = assocGet l k := by
  induction l with
  | nil => simp [assocRemove, assocGet]
  | cons hd tl ih =>
    obtain ⟨k', v'⟩ := hd
    simp only [assocRemove, assocGet]
    split
    · rfl
    · simpa using ih

theorem assocGet_insert_self {T : Type} (l : List (Int × T)) (k : Int) (v : T) :
    assocGet (assocInsert l k v).2 k = some v := by
  induction l with
  | nil => simp [assocInsert, assocGet]
  | cons hd tl ih =>
    obtain ⟨k', v'⟩ := hd
    simp only [assocInsert]
    split
    · simp [assocGet]
    · simp [assocGet, *]

theorem assocGet_insert_ne {T : Type} (l : List (Int × T)) (k p : Int) (v : T)
    (hne : p ≠ k) : assocGet (assocInsert l k v).2 p = assocGet l p := by
  have hkp : ¬ (k = p) := fun h => hne h.symm
  induction l with
  | nil => simp [assocInsert, assocGet, hkp]
  | cons hd tl ih =>
    obtain ⟨k', v'⟩ := hd
    simp only [assocInsert]
    split
    · next hk =>
      subst hk
      simp [assocGet, hkp]
    · simp only [assocGet]
      split
      · rfl
      · exact ih

theorem assocGet_remove_self {T : Type} (l : List (Int × T)) (k : Int) :
    assocGet (assocRemove l k).2 k = none := by
  induction l with
  | nil => simp [assocRemove, assocGet]
  | cons hd tl ih =>
    obtain ⟨k', v'⟩ := hd
    simp only [assocRemove]
    split
    · exact ih
    · next hk =>
      simpa [assocGet, hk] using ih

theorem assocGet_remove_ne {T : Type} (l : List (Int × T)) (k p : Int)
    (hne : p ≠ k) : assocGet (assocRemove l k).2 p = assocGet l p := by
  have hkp : ¬ (k = p) := fun h => hne h.symm
  induction l with
  | nil => simp [assocRemove, assocGet]
  | cons hd tl ih =>
    obtain ⟨k', v'⟩ := hd
    simp only [assocRemove]
    split
    · next hk =>
      subst hk
      simp only [assocGet, if_neg hkp]
      exact ih
    · simp only [assocGet]
      split
      · rfl
      · exact ih

/-! ### Tape-level read/write lemmas -/

theorem Tape.value_set_self {T : Type} (t : Tape T) (head : Int)
    (v : Option T) : ((t.set head v).2).value head = v := by
  cases v with
  | none => simpa [Tape.set, Tape.value] using assocGet_remove_self t.cells head
  | some w => simpa [Tape.set, Tape.value] using assocGet_insert_self t.cells head w

theorem Tape.value_set_ne {T : Type} (t : Tape T) (head p : Int)
    (v : Option T) (hne : p ≠ head) :
    ((t.set head v).2).value p = t.value p := by
  cases v with
  | none => simpa [Tape.set, Tape.value] using assocGet_remove_ne t.cells head p hne
  | some w => simpa [Tape.set, Tape.value] using assocGet_insert_ne t.cells head p w hne

theorem Tape.set_fst {T : Type} (t : Tape T) (head : Int) (v : Option T) :
    (t.set head v).1 = t.value head := by
  cases v with
  | none => simpa [Tape.set, Tape.value] using assocRemove_fst t.cells head
  | some w => simpa [Tape.set, Tape.value] using assocInsert_fst t.cells head w

/-! ### The linked-chain tape of `src/main.rs`

`Cell<T>` nodes live behind `Rc<RefCell<..>>` links; we model the heap of
such nodes as a `Store` (a growable list indexed by `Nat`), and a
`CellLink` as an index into the store.  Cloning a link clones the `Rc`
pointer, i.e. copies the index, so aliasing is preserved. -/

/-- `Cell<T>` from `src/main.rs`: an optional value and optional links to
the left and right neighbours. -/
structure Cell (T : Type) where
  value : Option T
  left : Option Nat
  right : Option Nat
deriving DecidableEq

/-- The heap of reference-counted cells. -/
structure Store (T : Type) where
  cells : List (Cell T)
deriving DecidableEq

/-- Dereference a `CellLink` (an `Rc` deref never fails in the source; in
theorems indices are always in range). -/
def Store.getCell {T : Type} (s : Store T) (i : Nat) : Cell T :=
  (s.cells[i]?).getD ⟨none, none, none⟩

/-- Mutation through a `RefCell::borrow_mut`. -/
def Store.setCell {T : Type} (s : Store T) (i : Nat) (c : Cell T) : Store T :=
  ⟨s.cells.set i c⟩

/-- Allocation of a fresh `Rc<RefCell<Cell>>`; returns the new link. -/
def Store.alloc {T : Type} (s : Store T) (c : Cell T) : Nat × Store T :=
  (s.cells.length, ⟨s.cells ++ [c]⟩)

/-- `Cell::single(value)` -/
def Cell.single {T : Type} (s : Store T) (value : Option T) : Nat × Store T :=
  s.alloc ⟨value, none, none⟩

/-- `Cell::right_link(value, left)`: allocates a node whose left link is
`leftId`, then sets `leftId`'s right link to the new node. -/
def Cell.right_link {T : Type} (s : Store T) (value : Option T)
    (leftId : Nat) : Nat × Store T :=
  let (newId, s1) := s.alloc ⟨value, some leftId, none⟩
  (newId, s1.setCell leftId { s1.getCell leftId with right := some newId })

/-- `Cell::left_link(value, right)`: allocates a node whose right link is
`rightId`, then sets `rightId`'s left link to the new node. -/
def Cell.left_link {T : Type} (s : Store T) (value : Option T)
    (rightId : Nat) : Nat × Store T :=
  let (newId, s1) := s.alloc ⟨value, none, some rightId⟩
  (newId, s1.setCell rightId { s1.getCell rightId with left := some newId })

/-- `Cursor<T>` from `src/main.rs`: holds an `Rc` link to the current
cell. -/
structure Cursor where
  current : Nat
deriving DecidableEq

/-- `Cursor::on_new_empty_tape()`: a fresh single blank cell on a fresh
heap. -/
def Cursor.on_new_empty_tape (T : Type) : Store T × Cursor :=
  let (id0, s) := Cell.single (⟨[]⟩ : Store T) none
  (s, ⟨id0⟩)

/-- `Cursor::lookup(&self)` -/
def Cursor.lookup {T : Type} (s : Store T) (c : Cursor) : Option T :=
  (s.getCell c.current).value

/-- `Cursor::set(&mut self, value)` -/
def Cursor.set {T : Type} (s : Store T) (c : Cursor) (value : Option T) :
    Store T :=
  s.setCell c.current { s.getCell c.current with value := value }

/-- `Clone::clone` for `Cursor` (derived in the source): clones the `Rc`
link, i.e. yields a second handle to the same cell. -/
def Cursor.clone (c : Cursor) : Cursor := c

/-- `Cursor::move_right(&mut self)`: lazily allocates a blank right
neighbour if none exists, returns the departed cell's value, and moves
the cursor onto the right neighbour. -/
def Cursor.move_right {T : Type} (s : Store T) (c : Cursor) :
    Option T × Store T × Cursor :=
  match (s.getCell c.current).right with
  | none =>
    let (newId, s1) := Cell.right_link s none c.current
    (Cursor.lookup s1 c, s1, ⟨newId⟩)
  | some r => (Cursor.lookup s c, s, ⟨r⟩)

/-- `Cursor::move_left(&mut self)`: mirror image of `move_right`. -/
def Cursor.move_left {T : Type} (s : Store T) (c : Cursor) :
    Option T × Store T × Cursor :=
  match (s.getCell c.current).left with
  | none =>
    let (newId, s1) := Cell.left_link s none c.current
    (Cursor.lookup s1 c, s1, ⟨newId⟩)
  | some l => (Cursor.lookup s c, s, ⟨l⟩)

/-- `Iterator::next` for `Cursor`: yields a clone of the current cursor
and moves right (allocating lazily). -/
def Cursor.next {T : Type} (s : Store T) (c : Cursor) :
    Option Cursor × Store T × Cursor :=
  let ret := some (Cursor.clone c)
  let (_, s1, c1) := Cursor.move_right s c
  (ret, s1, c1)

/-- `DoubleEndedIterator::next_back` for `Cursor`: yields a clone of the
current cursor and moves left (allocating lazily). -/
def Cursor.next_back {T : Type} (s : Store T) (c : Cursor) :
    Option Cursor × Store T × Cursor :=
  let ret := some (Cursor.clone c)
  let (_, s1, c1) := Cursor.move_left s c
  (ret, s1, c1)

/-! ### The machine of `src/main.rs` -/

/-- `Observed<Symbol, State>` -/
structure Observed (Symbol State : Type) where
  symbol : Option Symbol
  state : State
deriving DecidableEq

/-- `Program<Symbol, State> = HashMap<Observed, Action>`, modelled as an
association list. -/
def Program (Symbol State : Type) : Type :=
  List (Observed Symbol State × Action Symbol State)

/-- `HashMap::get` on a program. -/
def progGet {Symbol State : Type} [DecidableEq Symbol] [DecidableEq State]
    (p : Program Symbol State) (o : Observed Symbol State) :
    Option (Action Symbol State) :=
  match p with
  | [] => none
  | (o', a) :: rest => if o' = o then some a else progGet rest o

/-- `IdleVirtualMachine::apply` from `src/main.rs`: write the action's
value through the cursor, then move it, then compute the next machine
value. -/
def IdleVirtualMachine.apply {Symbol State : Type} (_state : State)
    (s : Store Symbol) (c : Cursor) (action : Action Symbol State) :
    VirtualMachine State × Store Symbol × Cursor :=
  let s1 := Cursor.set s c action.set
  let (s2, c2) :=
    match action.movement with
    | Movement.Left =>
      let (_, s', c') := Cursor.move_left s1 c
      (s', c')
    | Movement.Right =>
      let (_, s', c') := Cursor.move_right s1 c
      (s', c')
    | Movement.Stay => (s1, c)
  match action.transition with
  | Transition.State ns => (VirtualMachine.Idle ns, s2, c2)
  | Transition.Halt => (VirtualMachine.Done, s2, c2)

/-- The body of the `while let` loop in `simple_program`: look the
observed pair up in the program (`.unwrap()` in the source panics on a
miss — modelled by the `none` first component, with the store and cursor
exactly as they were at the panic point), otherwise apply the action. -/
def loopStep {Symbol State : Type} [DecidableEq Symbol] [DecidableEq State]
    (prog : Program Symbol State) (state : State) (s : Store Symbol)
    (c : Cursor) : Option (VirtualMachine State) × Store Symbol × Cursor :=
  match progGet prog ⟨Cursor.lookup s c, state⟩ with
  | none => (none, s, c)
  | some act =>
    let (m', s', c') := IdleVirtualMachine.apply state s c act
    (some m', s', c')

/-- Fuelled iteration of the `while let VirtualMachine::Idle(idle)` loop
of `simple_program`; `none` signals the `.unwrap()` panic on a table
miss. -/
def steps {Symbol State : Type} [DecidableEq Symbol] [DecidableEq State]
    (prog : Program Symbol State) :
    Nat → VirtualMachine State → Store Symbol → Cursor →
    Option (VirtualMachine State × Store Symbol × Cursor)
  | 0, m, s, c => some (m, s, c)
  | Nat.succ n, m, s, c =>
    match m with
    | VirtualMachine.Done => some (m, s, c)
    | VirtualMachine.Idle st =>
      match loopStep prog st s c with
      | (none, _, _) => none
      | (some m', s', c') => steps prog n m' s' c'

/-- `build_simple_program` from `src/main.rs`. -/
def build_simple_program : Program Char Char :=
  [ (⟨some 'a', 'a'⟩, ⟨some 'b', Movement.Left, Transition.State 'b'⟩),
    (⟨some 'b', 'b'⟩, ⟨none, Movement.Right, Transition.State 'b'⟩),
    (⟨none, 'b'⟩, ⟨some 'a', Movement.Stay, Transition.Halt⟩) ]

/-- The initial configuration of `simple_program`: a fresh tape whose
current cell is set to `'a'`, machine started in state `'a'`. -/
def simpleProgramInit : Store Char × Cursor :=
  let (s, c) := Cursor.on_new_empty_tape Char
  (Cursor.set s c (some 'a'), c)

/-! ### Store lemmas -/

theorem Store.getCell_setCell_self {T : Type} (s : Store T) (i : Nat)
    (cell : Cell T) (hi : i < s.cells.length) :
    (s.setCell i cell).getCell i = cell := by
  simp [Store.setCell, Store.getCell, List.getElem?_set_eq_of_lt _ hi]

theorem Store.getCell_setCell_ne {T : Type} (s : Store T) (i j : Nat)
    (cell : Cell T) (hij : i ≠ j) :
    (s.setCell i cell).getCell j = s.getCell j := by
  simp [Store.setCell, Store.getCell, List.getElem?_set_ne hij]

theorem Store.length_setCell {T : Type} (s : Store T) (i : Nat)
    (cell : Cell T) : ((s.setCell i cell).cells).length = s.cells.length := by
  simp [Store.setCell]

theorem Store.getCell_append_lt {T : Type} (s : Store T) (cell : Cell T)
    (j : Nat) (hj : j < s.cells.length) :
    (Store.mk (s.cells ++ [cell])).getCell j = s.getCell j := by
  simp [Store.getCell, List.getElem?_append, hj]

theorem Store.getCell_append_self {T : Type} (s : Store T) (cell : Cell T) :
    (Store.mk (s.cells ++ [cell])).getCell s.cells.length = cell := by
  simp [Store.getCell, List.getElem?_concat_length]

theorem Cursor.lookup_set_self {T : Type} (s : Store T) (c : Cursor)
    (v : Option T) (hc : c.current < s.cells.length) :
    Cursor.lookup (Cursor.set s c v) c = v := by
  simp [Cursor.lookup, Cursor.set, Store.getCell_setCell_self _ _ _ hc]

/-! ### Equivalence of the two tape realizations

A driver program over a tape is a finite sequence of read, write and
move operations.  `mapRun` interprets it over the sparse-map tape of
`turing.rs` (head advanced arithmetically, as in `execute`); `chainRun`
interprets it over the linked-chain tape of `main.rs`.  Both emit the
result of each read. -/

/-- An abstract tape operation. -/
inductive Op (T : Type) where
  | read
  | write (v : Option T)
  | moveLeft
  | moveRight

/-- Interpret a sequence of operations over the sparse-map tape,
emitting each read result. -/
def mapRun {T : Type} : Tape T → Int → List (Op T) → List (Option T)
  | _, _, [] => []
  | t, h, Op.read :: ops => t.value h :: mapRun t h ops
  | t, h, Op.write v :: ops => mapRun (t.set h v).2 h ops
  | t, h, Op.moveLeft :: ops => mapRun t (h - 1) ops
  | t, h, Op.moveRight :: ops => mapRun t (h + 1) ops

/-- Interpret a sequence of operations over the linked-chain tape,
emitting each read result. -/
def chainRun {T : Type} : Store T → Cursor → List (Op T) → List (Option T)
  | _, _, [] => []
  | s, c, Op.read :: ops => Cursor.lookup s c :: chainRun s c ops
  | s, c, Op.write v :: ops => chainRun (Cursor.set s c v) c ops
  | s, c, Op.moveLeft :: ops =>
    let r := Cursor.move_left s c
    chainRun r.2.1 r.2.2 ops
  | s, c, Op.moveRight :: ops =>
    let r := Cursor.move_right s c
    chainRun r.2.1 r.2.2 ops

/-- Simulation invariant between a chain configuration `(s, c)` and a
map configuration `(t, h)`: the materialized chain is addressed by
`addr` on the interval `[lo, hi]` of positions, the cursor sits at
position `h`, neighbour links are exactly the interval's successor and
predecessor links, cell values agree with the map, and the map is blank
outside the materialized interval. -/
def SimAux {T : Type} (lo hi : Int) (addr : Int → Nat) (s : Store T)
    (c : Cursor) (t : Tape T) (h : Int) : Prop :=
  lo ≤ h ∧ h ≤ hi
  ∧ addr h = c.current
  ∧ (∀ i j, lo ≤ i → i ≤ hi → lo ≤ j → j ≤ hi → addr i = addr j → i = j)
  ∧ (∀ i, lo ≤ i → i ≤ hi → addr i < s.cells.length)
  ∧ (∀ i, lo ≤ i → i ≤ hi →
      (s.getCell (addr i)).value = t.value i
      ∧ (s.getCell (addr i)).left
          = (if lo < i then some (addr (i - 1)) else none)
      ∧ (s.getCell (addr i)).right
          = (if i < hi then some (addr (i + 1)) else none))
  ∧ (∀ i, i < lo ∨ hi < i → t.value i = none)

/-- A chain configuration refines a map configuration. -/
def Sim {T : Type} (s : Store T) (c : Cursor) (t : Tape T) (h : Int) :
    Prop :=
  ∃ lo hi addr, SimAux lo hi addr s c t h

theorem SimAux.lookup_eq {T : Type} {lo hi : Int} {addr : Int → Nat}
    {s : Store T} {c : Cursor} {t : Tape T} {h : Int}
    (hs : SimAux lo hi addr s c t h) : Cursor.lookup s c = t.value h := by
  obtain ⟨hlo, hhi, hcur, _, _, hcells, _⟩ := hs
  have hv := (hcells h hlo hhi).1
  rw [hcur] at hv
  simpa [Cursor.lookup] using hv

theorem SimAux.write {T : Type} {lo hi : Int} {addr : Int → Nat}
    {s : Store T} {c : Cursor} {t : Tape T} {h : Int}
    (hs : SimAux lo hi addr s c t h) (v : Option T) :
    SimAux lo hi addr (Cursor.set s c v) c (t.set h v).2 h := by
  obtain ⟨hlo, hhi, hcur, hinj, hlen, hcells, hout⟩ := hs
  have hclen : c.current < s.cells.length := hcur ▸ hlen h hlo hhi
  refine ⟨hlo, hhi, hcur, hinj, ?_, ?_, ?_⟩
  · intro i h1 h2
    simpa [Cursor.set, Store.length_setCell] using hlen i h1 h2
  · intro i h1 h2
    obtain ⟨hv, hl, hr⟩ := hcells i h1 h2
    by_cases hic : addr i = c.current
    · have hih : i = h := hinj i h h1 h2 hlo hhi (by rw [hic, hcur])
      subst hih
      rw [Cursor.set, hic, Store.getCell_setCell_self _ _ _ hclen]
      refine ⟨by simp [Tape.value_set_self], ?_, ?_⟩
      · simpa [hic] using hl
      · simpa [hic] using hr
    · have hih : i ≠ h := fun hcontra => hic (by rw [hcontra, hcur])
      rw [Cursor.set, Store.getCell_setCell_ne _ _ _ _ (fun a => hic a.symm)]
      exact ⟨by rw [hv, Tape.value_set_ne t h i v hih], hl, hr⟩
  · intro i hio
    have hih : i ≠ h := by
      rcases hio with hio | hio <;> omega
    rw [Tape.value_set_ne t h i v hih]
    exact hout i hio

theorem SimAux.move_right_interior {T : Type} {lo hi : Int}
    {addr : Int → Nat} {s : Store T} {c : Cursor} {t : Tape T} {h : Int}
    (hs : SimAux lo hi addr s c t h) (hlt : h < hi) :
    Cursor.move_right s c = (t.value h, s, ⟨addr (h + 1)⟩)
    ∧ SimAux lo hi addr s ⟨addr (h + 1)⟩ t (h + 1) := by
  obtain ⟨hlo, hhi, hcur, hinj, hlen, hcells, hout⟩ := hs
  have hright : (s.getCell c.current).right = some (addr (h + 1)) := by
    have hr := (hcells h hlo hhi).2.2
    rw [hcur] at hr
    rw [hr, if_pos hlt]
  have hlook : Cursor.lookup s c = t.value h := by
    have hv := (hcells h hlo hhi).1
    rw [hcur] at hv
    simpa [Cursor.lookup] using hv
  constructor
  · rw [Cursor.move_right, hright, hlook]
  · exact ⟨by omega, by omega, rfl, hinj, hlen, hcells, hout⟩

theorem SimAux.move_left_interior {T : Type} {lo hi : Int}
    {addr : Int → Nat} {s : Store T} {c : Cursor} {t : Tape T} {h : Int}
    (hs : SimAux lo hi addr s c t h) (hgt : lo < h) :
    Cursor.move_left s c = (t.value h, s, ⟨addr (h - 1)⟩)
    ∧ SimAux lo hi addr s ⟨addr (h - 1)⟩ t (h - 1) := by
  obtain ⟨hlo, hhi, hcur, hinj, hlen, hcells, hout⟩ := hs
  have hleft : (s.getCell c.current).left = some (addr (h - 1)) := by
    have hl := (hcells h hlo hhi).2.1
    rw [hcur] at hl
    rw [hl, if_pos hgt]
  have hlook : Cursor.lookup s c = t.value h := by
    have hv := (hcells h hlo hhi).1
    rw [hcur] at hv
    simpa [Cursor.lookup] using hv
  constructor
  · rw [Cursor.move_left, hleft, hlook]
  · exact ⟨by omega, by omega, rfl, hinj, hlen, hcells, hout⟩

theorem Cursor.move_right_none {T : Type} (s : Store T) (c : Cursor)
    (hr : (s.getCell c.current).right = none) :
    Cursor.move_right s c =
      (Cursor.lookup (Cell.right_link s none c.current).2 c,
       (Cell.right_link s none c.current).2,
       ⟨(Cell.right_link s none c.current).1⟩) := by
  rw [Cursor.move_right, hr]

theorem Cursor.move_left_none {T : Type} (s : Store T) (c : Cursor)
    (hl : (s.getCell c.current).left = none) :
    Cursor.move_left s c =
      (Cursor.lookup (Cell.left_link s none c.current).2 c,
       (Cell.left_link s none c.current).2,
       ⟨(Cell.left_link s none c.current).1⟩) := by
  rw [Cursor.move_left, hl]

theorem Cell.right_link_fst {T : Type} (s : Store T) (v : Option T)
    (l : Nat) : (Cell.right_link s v l).1 = s.cells.length := rfl

theorem Cell.right_link_length {T : Type} (s : Store T) (v : Option T)
    (l : Nat) :
    ((Cell.right_link s v l).2).cells.length = s.cells.length + 1 := by
  simp [Cell.right_link, Store.alloc, Store.setCell]

theorem Cell.right_link_getCell_self {T : Type} (s : Store T)
    (v : Option T) (l : Nat) (hl : l < s.cells.length) :
    ((Cell.right_link s v l).2).getCell l
      = { s.getCell l with right := some s.cells.length } := by
  rw [Cell.right_link]
  simp only [Store.alloc]
  rw [Store.getCell_setCell_self]
  · rw [Store.getCell_append_lt _ _ _ hl]
  · simp only [List.length_append, List.length_singleton]
    omega

theorem Cell.right_link_getCell_new {T : Type} (s : Store T)
    (v : Option T) (l : Nat) (hl : l < s.cells.length) :
    ((Cell.right_link s v l).2).getCell s.cells.length
      = ⟨v, some l, none⟩ := by
  rw [Cell.right_link]
  simp only [Store.alloc]
  rw [Store.getCell_setCell_ne _ _ _ _ (by omega)]
  exact Store.getCell_append_self s _

theorem Cell.right_link_getCell_other {T : Type} (s : Store T)
    (v : Option T) (l j : Nat) (hj : j < s.cells.length) (hne : j ≠ l) :
    ((Cell.right_link s v l).2).getCell j = s.getCell j := by
  rw [Cell.right_link]
  simp only [Store.alloc]
  rw [Store.getCell_setCell_ne _ _ _ _ (fun a => hne a.symm)]
  exact Store.getCell_append_lt _ _ _ hj

theorem Cell.left_link_fst {T : Type} (s : Store T) (v : Option T)
    (r : Nat) : (Cell.left_link s v r).1 = s.cells.length := rfl

theorem Cell.left_link_length {T : Type} (s : Store T) (v : Option T)
    (r : Nat) :
    ((Cell.left_link s v r).2).cells.length = s.cells.length + 1 := by
  simp [Cell.left_link, Store.alloc, Store.setCell]

theorem Cell.left_link_getCell_self {T : Type} (s : Store T)
    (v : Option T) (r : Nat) (hr : r < s.cells.length) :
    ((Cell.left_link s v r).2).getCell r
      = { s.getCell r with left := some s.cells.length } := by
  rw [Cell.left_link]
  simp only [Store.alloc]
  rw [Store.getCell_setCell_self]
  · rw [Store.getCell_append_lt _ _ _ hr]
  · simp only [List.length_append, List.length_singleton]
    omega

theorem Cell.left_link_getCell_new {T : Type} (s : Store T)
    (v : Option T) (r : Nat) (hr : r < s.cells.length) :
    ((Cell.left_link s v r).2).getCell s.cells.length
      = ⟨v, none, some r⟩ := by
  rw [Cell.left_link]
  simp only [Store.alloc]
  rw [Store.getCell_setCell_ne _ _ _ _ (by omega)]
  exact Store.getCell_append_self s _

theorem Cell.left_link_getCell_other {T : Type} (s : Store T)
    (v : Option T) (r j : Nat) (hj : j < s.cells.length) (hne : j ≠ r) :
    ((Cell.left_link s v r).2).getCell j = s.getCell j := by
  rw [Cell.left_link]
  simp only [Store.alloc]
  rw [Store.getCell_setCell_ne _ _ _ _ (fun a => hne a.symm)]
  exact Store.getCell_append_lt _ _ _ hj

theorem SimAux.move_right_extend {T : Type} {lo hi : Int}
    {addr : Int → Nat} {s : Store T} {c : Cursor} {t : Tape T} {h : Int}
    (hs : SimAux lo hi addr s c t h) (heq : h = hi) :
    (Cursor.move_right s c).1 = t.value h
    ∧ (Cursor.move_right s c).2.2 = ⟨s.cells.length⟩
    ∧ ((Cursor.move_right s c).2.1).cells.length = s.cells.length + 1
    ∧ (∀ j, j < s.cells.length →
        (((Cursor.move_right s c).2.1).getCell j).value
          = (s.getCell j).value)
    ∧ SimAux lo (hi + 1)
        (fun i => if i = hi + 1 then s.cells.length else addr i)
        (Cursor.move_right s c).2.1 ⟨s.cells.length⟩ t (h + 1) := by
  obtain ⟨hlo, hhi, hcur, hinj, hlen, hcells, hout⟩ := hs
  have hclen : c.current < s.cells.length := hcur ▸ hlen h hlo hhi
  have hright : (s.getCell c.current).right = none := by
    have hr := (hcells h hlo hhi).2.2
    rw [hcur] at hr
    rw [hr, if_neg (by omega)]
  have hmv := Cursor.move_right_none s c hright
  have gSelf := Cell.right_link_getCell_self s none c.current hclen
  have gNew := Cell.right_link_getCell_new s none c.current hclen
  have gLen := Cell.right_link_length s none c.current
  rw [hmv]
  refine ⟨?_, by rw [Cell.right_link_fst], gLen, ?_, ?_⟩
  · show ((Cell.right_link s none c.current).2.getCell c.current).value
      = t.value h
    rw [gSelf]
    have hv := (hcells h hlo hhi).1
    rw [hcur] at hv
    exact hv
  · intro j hj
    by_cases hjc : j = c.current
    · subst hjc
      rw [gSelf]
    · rw [Cell.right_link_getCell_other s none c.current j hj hjc]
  · refine ⟨by omega, by omega, ?_, ?_, ?_, ?_, ?_⟩
    · beta_reduce
      rw [if_pos (show h + 1 = hi + 1 by omega)]
    · intro i j h1 h2 h3 h4 he
      beta_reduce at he
      by_cases hi1 : i = hi + 1 <;> by_cases hj1 : j = hi + 1
      · omega
      · rw [if_pos hi1, if_neg hj1] at he
        have := hlen j h3 (by omega)
        omega
      · rw [if_neg hi1, if_pos hj1] at he
        have := hlen i h1 (by omega)
        omega
      · rw [if_neg hi1, if_neg hj1] at he
        exact hinj i j h1 (by omega) h3 (by omega) he
    · intro i h1 h2
      beta_reduce
      rw [gLen]
      by_cases hi1 : i = hi + 1
      · rw [if_pos hi1]
        omega
      · rw [if_neg hi1]
        have := hlen i h1 (by omega)
        omega
    · intro i h1 h2
      beta_reduce
      by_cases hi1 : i = hi + 1
      · rw [if_pos hi1]
        rw [gNew]
        refine ⟨(hout i (by omega)).symm, ?_, ?_⟩
        · rw [if_pos (by omega)]
          have hne1 : ¬ (i - 1 = hi + 1) := by omega
          rw [if_neg hne1]
          have : i - 1 = h := by omega
          rw [this, hcur]
        · rw [if_neg (by omega)]
      · have h2' : i ≤ hi := by omega
        rw [if_neg hi1]
        by_cases hac : addr i = c.current
        · have hih : i = h := hinj i h h1 h2' hlo hhi (by rw [hac, hcur])
          rw [hac, gSelf]
          obtain ⟨hv, hl, hr⟩ := hcells i h1 h2'
          rw [hac] at hv hl hr
          refine ⟨hv, ?_, ?_⟩
          · rw [hl]
            have hne1 : ¬ (i - 1 = hi + 1) := by omega
            rw [if_neg hne1]
          · rw [if_pos (by omega)]
            have : i + 1 = hi + 1 := by omega
            rw [if_pos this]
        · have hih : i ≠ h := fun hcontra => hac (by rw [hcontra, hcur])
          have hilt : i < hi := by omega
          rw [Cell.right_link_getCell_other s none c.current (addr i)
            (hlen i h1 h2') hac]
          obtain ⟨hv, hl, hr⟩ := hcells i h1 h2'
          refine ⟨hv, ?_, ?_⟩
          · rw [hl]
            have hne1 : ¬ (i - 1 = hi + 1) := by omega
            rw [if_neg hne1]
          · rw [hr, if_pos hilt, if_pos (by omega)]
            have hne1 : ¬ (i + 1 = hi + 1) := by omega
            rw [if_neg hne1]
    · intro i hio
      exact hout i (by omega)

theorem SimAux.move_left_extend {T : Type} {lo hi : Int}
    {addr : Int → Nat} {s : Store T} {c : Cursor} {t : Tape T} {h : Int}
    (hs : SimAux lo hi addr s c t h) (heq : h = lo) :
    (Cursor.move_left s c).1 = t.value h
    ∧ (Cursor.move_left s c).2.2 = ⟨s.cells.length⟩
    ∧ ((Cursor.move_left s c).2.1).cells.length = s.cells.length + 1
    ∧ (∀ j, j < s.cells.length →
        (((Cursor.move_left s c).2.1).getCell j).value
          = (s.getCell j).value)
    ∧ SimAux (lo - 1) hi
        (fun i => if i = lo - 1 then s.cells.length else addr i)
        (Cursor.move_left s c).2.1 ⟨s.cells.length⟩ t (h - 1) := by
  obtain ⟨hlo, hhi, hcur, hinj, hlen, hcells, hout⟩ := hs
  have hclen : c.current < s.cells.length := hcur ▸ hlen h hlo hhi
  have hleft : (s.getCell c.current).left = none := by
    have hl := (hcells h hlo hhi).2.1
    rw [hcur] at hl
    rw [hl, if_neg (by omega)]
  have hmv := Cursor.move_left_none s c hleft
  have gSelf := Cell.left_link_getCell_self s none c.current hclen
  have gNew := Cell.left_link_getCell_new s none c.current hclen
  have gLen := Cell.left_link_length s none c.current
  rw [hmv]
  refine ⟨?_, by rw [Cell.left_link_fst], gLen, ?_, ?_⟩
  · show ((Cell.left_link s none c.current).2.getCell c.current).value
      = t.value h
    rw [gSelf]
    have hv := (hcells h hlo hhi).1
    rw [hcur] at hv
    exact hv
  · intro j hj
    by_cases hjc : j = c.current
    · subst hjc
      rw [gSelf]
    · rw [Cell.left_link_getCell_other s none c.current j hj hjc]
  · refine ⟨by omega, by omega, ?_, ?_, ?_, ?_, ?_⟩
    · beta_reduce
      rw [if_pos (show h - 1 = lo - 1 by omega)]
    · intro i j h1 h2 h3 h4 he
      beta_reduce at he
      by_cases hi1 : i = lo - 1 <;> by_cases hj1 : j = lo - 1
      · omega
      · rw [if_pos hi1, if_neg hj1] at he
        have := hlen j (by omega) h4
        omega
      · rw [if_neg hi1, if_pos hj1] at he
        have := hlen i (by omega) h2
        omega
      · rw [if_neg hi1, if_neg hj1] at he
        exact hinj i j (by omega) h2 (by omega) h4 he
    · intro i h1 h2
      beta_reduce
      rw [gLen]
      by_cases hi1 : i = lo - 1
      · rw [if_pos hi1]
        omega
      · rw [if_neg hi1]
        have := hlen i (by omega) h2
        omega
    · intro i h1 h2
      beta_reduce
      by_cases hi1 : i = lo - 1
      · rw [if_pos hi1]
        rw [gNew]
        refine ⟨(hout i (by omega)).symm, ?_, ?_⟩
        · rw [if_neg (by omega)]
        · rw [if_pos (by omega)]
          have hne1 : ¬ (i + 1 = lo - 1) := by omega
          rw [if_neg hne1]
          have : i + 1 = h := by omega
          rw [this, hcur]
      · have h1' : lo ≤ i := by omega
        rw [if_neg hi1]
        by_cases hac : addr i = c.current
        · have hih : i = h := hinj i h h1' h2 hlo hhi (by rw [hac, hcur])
          rw [hac, gSelf]
          obtain ⟨hv, hl, hr⟩ := hcells i h1' h2
          rw [hac] at hv hl hr
          refine ⟨hv, ?_, ?_⟩
          · rw [if_pos (by omega)]
            have : i - 1 = lo - 1 := by omega
            rw [if_pos this]
          · rw [hr]
            have hne1 : ¬ (i + 1 = lo - 1) := by omega
            rw [if_neg hne1]
        · have hih : i ≠ h := fun hcontra => hac (by rw [hcontra, hcur])
          have higt : lo < i := by omega
          rw [Cell.left_link_getCell_other s none c.current (addr i)
            (hlen i h1' h2) hac]
          obtain ⟨hv, hl, hr⟩ := hcells i h1' h2
          refine ⟨hv, ?_, ?_⟩
          · rw [hl, if_pos higt, if_pos (by omega)]
            have hne1 : ¬ (i - 1 = lo - 1) := by omega
            rw [if_neg hne1]
          · rw [hr]
            have hne1 : ¬ (i + 1 = lo - 1) := by omega
            rw [if_neg hne1]
    · intro i hio
      exact hout i (by omega)

theorem simAux_init {T : Type} :
    SimAux 0 0 (fun _ => 0) (Cursor.on_new_empty_tape T).1
      (Cursor.on_new_empty_tape T).2 (Tape.new T) 0 := by
  refine ⟨le_refl 0, le_refl 0, rfl, ?_, ?_, ?_, ?_⟩
  · intro i j h1 h2 h3 h4 _
    omega
  · intro i h1 h2
    show (0 : Nat) < 1
    omega
  · intro i h1 h2
    have hi0 : i = 0 := by omega
    subst hi0
    refine ⟨rfl, ?_, ?_⟩
    · beta_reduce
      rw [if_neg (by omega)]
      rfl
    · beta_reduce
      rw [if_neg (by omega)]
      rfl
  · intro i _
    rfl

theorem chainRun_eq_mapRun {T : Type} (ops : List (Op T)) :
    ∀ (lo hi : Int) (addr : Int → Nat) (s : Store T) (c : Cursor)
      (t : Tape T) (h : Int), SimAux lo hi addr s c t h →
      chainRun s c ops = mapRun t h ops := by
  induction ops with
  | nil =>
    intro lo hi addr s c t h _
    rfl
  | cons op rest ih =>
    intro lo hi addr s c t h hs
    cases op with
    | read =>
      simp only [chainRun, mapRun]
      rw [hs.lookup_eq]
      exact congrArg _ (ih lo hi addr s c t h hs)
    | write v =>
      simp only [chainRun, mapRun]
      exact ih lo hi addr _ c _ h (hs.write v)
    | moveRight =>
      simp only [chainRun, mapRun]
      by_cases hlt : h < hi
      · obtain ⟨hmv, hs'⟩ := hs.move_right_interior hlt
        rw [hmv]
        exact ih lo hi addr s ⟨addr (h + 1)⟩ t (h + 1) hs'
      · have heq : h = hi := by
          have := hs.2.1
          omega
        obtain ⟨_, hc2, _, _, hs'⟩ := hs.move_right_extend heq
        rw [hc2]
        exact ih lo (hi + 1) _ _ _ t (h + 1) hs'
    | moveLeft =>
      simp only [chainRun, mapRun]
      by_cases hgt : lo < h
      · obtain ⟨hmv, hs'⟩ := hs.move_left_interior hgt
        rw [hmv]
        exact ih lo hi addr s ⟨addr (h - 1)⟩ t (h - 1) hs'
      · have heq : h = lo := by
          have := hs.1
          omega
        obtain ⟨_, hc2, _, _, hs'⟩ := hs.move_left_extend heq
        rw [hc2]
        exact ih (lo - 1) hi _ _ _ t (h - 1) hs'

end TuringRs

namespace TuringRs

/-! ### Claim theorems -/

/-- C1: one `execute` step of a running machine writes the action's
write value to the cell under the (old) head before any movement — the
written value lands in the departed cell and no other cell changes —
then moves the head by exactly one cell left or right (`Stay` performs
no movement), and yields `Idle s` (Running) when the transition is
`State s` and `Done` (Halted) when it is `Halt`. -/
theorem execute_running_step {T S : Type} (s : S) (a : Action T S)
    (t : Tape T) (h : Int) :
    ((execute (VirtualMachine.Idle s) a t h).2.1).value h = a.set
    ∧ (∀ p, p ≠ h →
        ((execute (VirtualMachine.Idle s) a t h).2.1).value p = t.value p)
    ∧ (a.movement = Movement.Left →
        (execute (VirtualMachine.Idle s) a t h).2.2 = h - 1)
    ∧ (a.movement = Movement.Right →
        (execute (VirtualMachine.Idle s) a t h).2.2 = h + 1)
    ∧ (a.movement = Movement.Stay →
        (execute (VirtualMachine.Idle s) a t h).2.2 = h)
    ∧ (∀ s2, a.transition = Transition.State s2 →
        (execute (VirtualMachine.Idle s) a t h).1 = VirtualMachine.Idle s2)
    ∧ (a.transition = Transition.Halt →
        (execute (VirtualMachine.Idle s) a t h).1 = VirtualMachine.Done) := by
  refine ⟨?_, ?_, ?_, ?_, ?_, ?_, ?_⟩
  · simpa [execute] using Tape.value_set_self t h a.set
  · intro p hp
    simpa [execute] using Tape.value_set_ne t h p a.set hp
  · intro hm; simp [execute, hm]
  · intro hm; simp [execute, hm]
  · intro hm; simp [execute, hm]
  · intro s2 ht; simp [execute, ht]
  · intro ht; simp [execute, ht]

/-- Witness for C1 at a concrete input. -/
theorem execute_running_step_witness :
    ((execute (VirtualMachine.Idle 'a')
        (⟨some 'b', Movement.Left, Transition.State 'b'⟩ : Action Char Char)
        (Tape.new Char) 0).2.1).value 0 = some 'b'
    ∧ (execute (VirtualMachine.Idle 'a')
        (⟨some 'b', Movement.Left, Transition.State 'b'⟩ : Action Char Char)
        (Tape.new Char) 0).2.2 = -1
    ∧ (execute (VirtualMachine.Idle 'a')
        (⟨some 'b', Movement.Left, Transition.State 'b'⟩ : Action Char Char)
        (Tape.new Char) 0).1 = VirtualMachine.Idle 'b' := by
  obtain ⟨h1, _, h3, _, _, h6, _⟩ :=
    execute_running_step 'a'
      (⟨some 'b', Movement.Left, Transition.State 'b'⟩ : Action Char Char)
      (Tape.new Char) 0
  exact ⟨h1, by simpa using h3 rfl, h6 'b' rfl⟩

/-- C2: when the transition table has no entry for the observed
(symbol, state) pair, the loop body of the driver fails with a
distinguishable error (the `.unwrap()` panic, modelled by the `none`
result, which is distinct from every successful `some` result — in
particular from a silently-stalling or silently-halting one), and at
that failure point neither the tape store nor the cursor has been
mutated; the fuelled driver loop propagates the failure. -/
theorem loopStep_table_miss {Symbol State : Type} [DecidableEq Symbol]
    [DecidableEq State] (prog : Program Symbol State) (st : State)
    (s : Store Symbol) (c : Cursor)
    (hmiss : progGet prog ⟨Cursor.lookup s c, st⟩ = none) :
    loopStep prog st s c = (none, s, c)
    ∧ (∀ m s' c',
        loopStep prog st s c ≠ (some (m : VirtualMachine State), s', c'))
    ∧ steps prog 1 (VirtualMachine.Idle st) s c = none := by
  refine ⟨by simp [loopStep, hmiss], ?_, by simp [steps, loopStep, hmiss]⟩
  intro m s' c' hcontra
  rw [show loopStep prog st s c = (none, s, c) by simp [loopStep, hmiss]]
    at hcontra
  exact Option.noConfusion (congrArg Prod.fst hcontra)

/-- Witness for C2: the empty program misses every observed pair. -/
theorem loopStep_table_miss_witness :
    loopStep ([] : Program Char Char) 'a' simpleProgramInit.1
      simpleProgramInit.2 = (none, simpleProgramInit.1, simpleProgramInit.2)
    ∧ steps ([] : Program Char Char) 1 (VirtualMachine.Idle 'a')
      simpleProgramInit.1 simpleProgramInit.2 = none := by
  obtain ⟨h1, _, h3⟩ :=
    loopStep_table_miss ([] : Program Char Char) 'a' simpleProgramInit.1
      simpleProgramInit.2 (by rfl)
  exact ⟨h1, h3⟩

/-- C3 counterexample: running `build_simple_program` from the
`simple_program` initial configuration, the machine is already `Done`
after two steps (so it does not halt after exactly three steps), and in
the final configuration the cell that held `'a'` then `'b'` (store
index 0, the original head cell) still holds `'b'` — it is not blank. -/
theorem simple_program_claim_false :
    (steps build_simple_program 2 (VirtualMachine.Idle 'a')
        simpleProgramInit.1 simpleProgramInit.2).map (fun r => r.1)
      = some VirtualMachine.Done
    ∧ (steps build_simple_program 3 (VirtualMachine.Idle 'a')
        simpleProgramInit.1 simpleProgramInit.2).map
          (fun r => Cursor.lookup r.2.1 ⟨0⟩)
      = some (some 'b') := by
  constructor
  · rfl
  · rfl

/-- C3 (amended): the copy-and-erase run halts after exactly two steps
(still running after one step, `Done` after two), with the final tape
holding `'a'` at the cell one left of the original head (store index 1,
where the cursor also rests), `'b'` still at the original head cell
(store index 0), and the machine Halted. -/
theorem simple_program_run :
    (steps build_simple_program 1 (VirtualMachine.Idle 'a')
        simpleProgramInit.1 simpleProgramInit.2).map (fun r => r.1)
      = some (VirtualMachine.Idle 'b')
    ∧ steps build_simple_program 2 (VirtualMachine.Idle 'a')
        simpleProgramInit.1 simpleProgramInit.2
      = some (VirtualMachine.Done,
          ⟨[⟨some 'b', some 1, none⟩, ⟨some 'a', none, some 0⟩]⟩,
          ⟨1⟩) := by
  constructor
  · rfl
  · rfl

/-- C4: cloning a cursor yields a second handle to the identical
physical cell (the same store index), and a write through the original
handle is visible through the clone. -/
theorem cursor_clone_aliasing {T : Type} (s : Store T) (c : Cursor)
    (x : T) (hc : c.current < s.cells.length) :
    Cursor.clone c = c
    ∧ Cursor.lookup (Cursor.set s c (some x)) (Cursor.clone c) = some x := by
  exact ⟨rfl, Cursor.lookup_set_self s c (some x) hc⟩

/-- Witness for C4 on a fresh one-cell tape. -/
theorem cursor_clone_aliasing_witness :
    (Cursor.on_new_empty_tape Char).2.current
      < (Cursor.on_new_empty_tape Char).1.cells.length
    ∧ Cursor.lookup
        (Cursor.set (Cursor.on_new_empty_tape Char).1
          (Cursor.on_new_empty_tape Char).2 (some 'z'))
        (Cursor.clone (Cursor.on_new_empty_tape Char).2) = some 'z' := by
  refine ⟨by decide, ?_⟩
  exact (cursor_clone_aliasing (Cursor.on_new_empty_tape Char).1
    (Cursor.on_new_empty_tape Char).2 'z' (by decide)).2

/-- C6: `execute` on an already-`Done` (Halted) machine is a no-op: the
machine stays `Done`, the head position is unchanged, and the tape is
not mutated. -/
theorem execute_done_noop {T S : Type} (a : Action T S) (t : Tape T)
    (h : Int) :
    execute (VirtualMachine.Done : VirtualMachine S) a t h
      = (VirtualMachine.Done, t, h) := rfl

/-- C8: writing any value `v` (including `none`, which clears the cell
back to blank) and then reading at the same place returns exactly `v`,
both on the map tape of `turing.rs` and through a cursor of `main.rs`. -/
theorem write_read_roundtrip {T : Type} (t : Tape T) (h : Int)
    (v : Option T) (s : Store T) (c : Cursor) :
    ((t.set h v).2).value h = v
    ∧ (c.current < s.cells.length →
        Cursor.lookup (Cursor.set s c v) c = v) := by
  exact ⟨Tape.value_set_self t h v, fun hc => Cursor.lookup_set_self s c v hc⟩

/-- Witness for C8, clearing a written cell back to blank. -/
theorem write_read_roundtrip_witness :
    (((Tape.new Char).set 0 none).2).value 0 = none
    ∧ Cursor.lookup
        (Cursor.set (Cursor.on_new_empty_tape Char).1
          (Cursor.on_new_empty_tape Char).2 none)
        (Cursor.on_new_empty_tape Char).2 = none := by
  obtain ⟨h1, h2⟩ :=
    write_read_roundtrip (Tape.new Char) 0 none
      (Cursor.on_new_empty_tape Char).1 (Cursor.on_new_empty_tape Char).2
  exact ⟨h1, h2 (by decide)⟩

/-- C9: `Tape::set` returns the value previously stored at the given
position — `some` of the old symbol when the position held one, `none`
when it was blank — for every new value, including `none`. -/
theorem tape_set_returns_previous {T : Type} (t : Tape T) (head : Int)
    (v : Option T) : (t.set head v).1 = t.value head :=
  Tape.set_fst t head v

/-- C10: the tape iterator and the cursor iterator are infinite: `next`
and `next_back` always return `some` (carrying the optional value at,
resp. a handle to, the current position) and never signal exhaustion;
the cursor iterator additionally allocates exactly one fresh blank cell
when it walks past the end of the known chain. -/
theorem iterators_infinite {T : Type} (it : TapeIter T) (s : Store T)
    (c : Cursor) :
    (TapeIter.next it).1 = some (it.tape.value it.head)
    ∧ (TapeIter.next_back it).1 = some (it.tape.value it.head)
    ∧ (Cursor.next s c).1 = some c
    ∧ (Cursor.next_back s c).1 = some c
    ∧ ((s.getCell c.current).right = none →
        ((Cursor.next s c).2.1).cells.length = s.cells.length + 1
        ∧ (((Cursor.next s c).2.1).getCell s.cells.length).value = none)
    ∧ ((s.getCell c.current).left = none →
        ((Cursor.next_back s c).2.1).cells.length = s.cells.length + 1
        ∧ (((Cursor.next_back s c).2.1).getCell s.cells.length).value
            = none) := by
  refine ⟨rfl, rfl, rfl, rfl, ?_, ?_⟩
  · intro hr
    constructor
    · simp [Cursor.next, Cursor.move_right, hr, Cell.right_link,
        Store.alloc, Store.setCell]
    · simp only [Cursor.next, Cursor.move_right, hr, Cell.right_link,
        Store.alloc]
      by_cases hcc : c.current = s.cells.length
      · rw [hcc]
        rw [Store.getCell_setCell_self]
        · simp [Store.getCell_append_self]
        · simp
      · rw [Store.getCell_setCell_ne _ _ _ _ hcc]
        simp [Store.getCell_append_self]
  · intro hl
    constructor
    · simp [Cursor.next_back, Cursor.move_left, hl, Cell.left_link,
        Store.alloc, Store.setCell]
    · simp only [Cursor.next_back, Cursor.move_left, hl, Cell.left_link,
        Store.alloc]
      by_cases hcc : c.current = s.cells.length
      · rw [hcc]
        rw [Store.getCell_setCell_self]
        · simp [Store.getCell_append_self]
        · simp
      · rw [Store.getCell_setCell_ne _ _ _ _ hcc]
        simp [Store.getCell_append_self]

/-- C5: the sparse-map tape realization of `turing.rs` and the
doubly-linked-chain realization of `main.rs` are semantically
equivalent: every finite sequence of read, write, move-left and
move-right operations, started from an empty tape, returns the same
sequence of read results in both realizations. -/
theorem chain_map_tape_equiv {T : Type} (ops : List (Op T)) :
    chainRun (Cursor.on_new_empty_tape T).1 (Cursor.on_new_empty_tape T).2
      ops = mapRun (Tape.new T) 0 ops :=
  chainRun_eq_mapRun ops 0 0 (fun _ => 0) _ _ _ _ simAux_init

/-- C7: on a well-formed chain (one reachable from the empty tape, as
captured by the `Sim` refinement invariant), `move_right` followed by
`move_left` returns the cursor to the identical physical cell (the same
store id, not merely an equal value), the value of every
previously-existing cell is unchanged by the round trip, and the
configuration still refines the same unchanged map tape, so every value
readable before the round trip is readable unchanged after it. -/
theorem cursor_move_roundtrip {T : Type} (s : Store T) (c : Cursor)
    (t : Tape T) (h : Int) (hsim : Sim s c t h) :
    (Cursor.move_left (Cursor.move_right s c).2.1
        (Cursor.move_right s c).2.2).2.2 = c
    ∧ (∀ j, j < s.cells.length →
        (((Cursor.move_left (Cursor.move_right s c).2.1
            (Cursor.move_right s c).2.2).2.1).getCell j).value
          = (s.getCell j).value)
    ∧ Sim ((Cursor.move_left (Cursor.move_right s c).2.1
          (Cursor.move_right s c).2.2).2.1)
        ((Cursor.move_left (Cursor.move_right s c).2.1
          (Cursor.move_right s c).2.2).2.2) t h := by
  obtain ⟨lo, hi, addr, hs⟩ := hsim
  have hcur : addr h = c.current := hs.2.2.1
  by_cases hlt : h < hi
  · obtain ⟨hmv, hs1⟩ := hs.move_right_interior hlt
    rw [hmv]
    obtain ⟨hmv2, hs2⟩ := hs1.move_left_interior (by
      have := hs.1
      omega)
    have h11 : h + 1 - 1 = h := by omega
    rw [h11] at hmv2 hs2
    rw [hmv2]
    refine ⟨?_, fun j _ => rfl, lo, hi, addr, ?_⟩
    · show (⟨addr h⟩ : Cursor) = c
      rw [hcur]
    · exact hs2
  · have heq : h = hi := by
      have := hs.2.1
      omega
    obtain ⟨_, hc2, _, hvals, hs1⟩ := hs.move_right_extend heq
    rw [hc2]
    obtain ⟨hmv2, hs2⟩ := hs1.move_left_interior (by
      have := hs.1
      omega)
    have h11 : h + 1 - 1 = h := by omega
    rw [h11] at hmv2 hs2
    rw [hmv2]
    have haddr : (fun i => if i = hi + 1 then s.cells.length else addr i) h
        = c.current := by
      beta_reduce
      rw [if_neg (by omega)]
      exact hcur
    refine ⟨?_, fun j hj => hvals j hj, lo, hi + 1,
      (fun i => if i = hi + 1 then s.cells.length else addr i), ?_⟩
    · show (⟨(fun i => if i = hi + 1 then s.cells.length else addr i) h⟩ :
        Cursor) = c
      rw [haddr]
    · exact hs2

/-- Witness for C7 on the fresh one-cell tape, whose refinement of the
empty map tape is `simAux_init`. -/
theorem cursor_move_roundtrip_witness :
    (Cursor.move_left
        (Cursor.move_right (Cursor.on_new_empty_tape Char).1
          (Cursor.on_new_empty_tape Char).2).2.1
        (Cursor.move_right (Cursor.on_new_empty_tape Char).1
          (Cursor.on_new_empty_tape Char).2).2.2).2.2
      = (Cursor.on_new_empty_tape Char).2
    ∧ (((Cursor.move_left
        (Cursor.move_right (Cursor.on_new_empty_tape Char).1
          (Cursor.on_new_empty_tape Char).2).2.1
        (Cursor.move_right (Cursor.on_new_empty_tape Char).1
          (Cursor.on_new_empty_tape Char).2).2.2).2.1).getCell 0).value
      = none := by
  obtain ⟨h1, h2, _⟩ :=
    cursor_move_roundtrip (Cursor.on_new_empty_tape Char).1
      (Cursor.on_new_empty_tape Char).2 (Tape.new Char) 0
      ⟨0, 0, fun _ => 0, simAux_init⟩
  refine ⟨h1, ?_⟩
  rw [h2 0 (by decide)]
  rfl

/-- Witness for C10 at the fresh one-cell tape, whose single cell has no
neighbours yet. -/
theorem iterators_infinite_witness :
    (TapeIter.next (⟨Tape.new Char, 0⟩ : TapeIter Char)).1 = some none
    ∧ (Cursor.next (Cursor.on_new_empty_tape Char).1
        (Cursor.on_new_empty_tape Char).2).1
      = some (Cursor.on_new_empty_tape Char).2
    ∧ ((Cursor.next (Cursor.on_new_empty_tape Char).1
        (Cursor.on_new_empty_tape Char).2).2.1).cells.length = 2 := by
  obtain ⟨h1, _, h3, _, h5, _⟩ :=
    iterators_infinite (⟨Tape.new Char, 0⟩ : TapeIter Char)
      (Cursor.on_new_empty_tape Char).1 (Cursor.on_new_empty_tape Char).2
  exact ⟨h1, h3, ((h5 (by decide)).1).trans (by decide)⟩

end TuringRs
